import Mathlib

/-!
# red-db: verification of the storage engine, AOF replay and codec

Shallow embedding of the `red-db-core` crate.  Spaces and keys are Lean
`String`s; values (`Vec<u8>` in the source) are lists of bytes.  The
persistent hash-trie maps (`rpds::HashTrieMapSync`) are embedded as
association lists with lookup/insert/remove; `HashedKey` compares by its
string, so `SpaceData` is keyed directly by the string key.
-/

namespace RedDb

/-- A byte of a stored value (`u8` in the source). -/
abbrev Byte := Fin 256

/-- A stored value: `Vec<u8>` in the source. -/
abbrev Bytes := List Byte

/-- Source `type SpaceData = HashTrieMapSync<HashedKey, Vec<u8>>` (keyed by the
string inside `HashedKey`, whose equality is string equality). -/
abbrev SpaceData := List (String × Bytes)

/-- Source `type Store = HashTrieMapSync<String, SpaceData>`. -/
abbrev Store := List (String × SpaceData)

/-- Map lookup (`HashTrieMapSync::get`). -/
def assocGet {α : Type} (m : List (String × α)) (k : String) : Option α :=
  match m with
  | [] => none
  | (k', v) :: rest => if k' = k then some v else assocGet rest k

/-- Map removal (`HashTrieMapSync::remove`): returns a map without the key. -/
def assocRemove {α : Type} (m : List (String × α)) (k : String) : List (String × α) :=
  m.filter (fun p => decide (p.1 ≠ k))

/-- Map insertion (`HashTrieMapSync::insert`): binds `k` to `v`, replacing
any previous binding. -/
def assocInsert {α : Type} (m : List (String × α)) (k : String) (v : α) :
    List (String × α) :=
  (k, v) :: assocRemove m k

/-- Map membership (`HashTrieMapSync::contains_key`). -/
def assocContains {α : Type} (m : List (String × α)) (k : String) : Bool :=
  (assocGet m k).isSome

/-- The `Command` enum of `proto/mod.rs`, variants in declaration order. -/
inductive Command where
  | Get (space key : String)
  | Set (space key : String) (value : Bytes)
  | Delete (space key : String)
  | ListSpaces
  | ListKeys (space : String)
  | DeleteSpace (space : String)
  | CreateSpace (space : String)
  | IsSpaceExists (space : String)
  deriving DecidableEq

/-- The `ServerError` enum of `error.rs`, variants in declaration order. -/
inductive ServerError where
  | SpaceNotFound (name : String)
  | KeyNotFound (key space : String)
  | SpaceAlreadyExists (name : String)
  | AofWriteFailed
  | AofReadFailed
  | InvalidKey (reason : String)
  | InvalidSpaceName
  | ValueTooLarge
  deriving DecidableEq

/-- The `Response` enum of `proto/mod.rs`, variants in declaration order. -/
inductive Response where
  | Ok
  | Value (v : Option Bytes)
  | Keys (ks : List String)
  | Spaces (ss : List String)
  | Bool (b : Bool)
  | Error (e : ServerError)
  deriving DecidableEq

/-- Source `Db::validate_command` (db.rs): static validation of a command.
`space.len()` in Rust is the UTF-8 byte length of the string. -/
def validate_command (command : Command) : Except ServerError Unit :=
  match command with
  | .Set _ key value =>
      if key.isEmpty then
        .error (.InvalidKey "Key cannot be empty")
      else if value.length > 1024 * 1024 then
        .error .ValueTooLarge
      else
        .ok ()
  | .CreateSpace space =>
      if space.isEmpty || space.utf8ByteSize > 255 then
        .error .InvalidSpaceName
      else
        .ok ()
  | _ => .ok ()

/-- Source `Db::apply_command_to_store` (db.rs): the relaxed fold used by AOF replay. -/
def apply_command_to_store (store : Store) (command : Command) : Store :=
  match command with
  | .Set space key value =>
      let space_data := (assocGet store space).getD []
      let updated_space := assocInsert space_data key value
      assocInsert store space updated_space
  | .Delete space key =>
      match assocGet store space with
      | some space_data => assocInsert store space (assocRemove space_data key)
      | none => store
  | .CreateSpace space => assocInsert store space []
  | .DeleteSpace space => assocRemove store space
  | _ => store

/-- Result of one engine call: the response, the published store after the
call, and the commands enqueued to the AOF channel during the call. -/
structure ExecResult where
  response : Response
  store : Store
  journal : List Command
  deriving DecidableEq

/-- Source `Db::handle_write` (db.rs).  Here `aofOk` models whether the AOF channel
accepts the send (`aof_sender.send(..).is_err()` is `!aofOk`).  The CAS
loop is run by a single writer here, so one iteration publishes.  The
wildcard arm is `unreachable!()` in the source: `execute` routes all read
commands away before calling `handle_write`. -/
def handle_write (aofOk : Bool) (store : Store) (command : Command) : ExecResult :=
  match validate_command command with
  | .error err => ⟨.Error err, store, []⟩
  | .ok _ =>
    if !aofOk then ⟨.Error .AofWriteFailed, store, []⟩
    else
      match command with
      | .Set space key value =>
          let space_data := (assocGet store space).getD []
          let updated_space_data := assocInsert space_data key value
          ⟨.Ok, assocInsert store space updated_space_data, [command]⟩
      | .Delete space key =>
          match assocGet store space with
          | some space_data =>
              ⟨.Ok, assocInsert store space (assocRemove space_data key), [command]⟩
          | none => ⟨.Error (.SpaceNotFound space), store, [command]⟩
      | .DeleteSpace space =>
          if assocContains store space then
            ⟨.Ok, assocRemove store space, [command]⟩
          else
            ⟨.Error (.SpaceNotFound space), store, [command]⟩
      | .CreateSpace space =>
          if assocContains store space then
            ⟨.Error (.SpaceAlreadyExists space), store, [command]⟩
          else
            ⟨.Ok, assocInsert store space [], [command]⟩
      | _ => ⟨.Ok, store, [command]⟩

/-- Source `Db::execute` (db.rs): read commands answer from a snapshot; write
commands go through `handle_write`. -/
def execute (aofOk : Bool) (store : Store) (command : Command) : ExecResult :=
  match command with
  | .Get space key =>
      match assocGet store space with
      | some space_data => ⟨.Value (assocGet space_data key), store, []⟩
      | none => ⟨.Error (.SpaceNotFound space), store, []⟩
  | .ListKeys space =>
      match assocGet store space with
      | some space_data => ⟨.Keys (space_data.map Prod.fst), store, []⟩
      | none => ⟨.Error (.SpaceNotFound space), store, []⟩
  | .ListSpaces => ⟨.Spaces (store.map Prod.fst), store, []⟩
  | .IsSpaceExists space => ⟨.Bool (assocContains store space), store, []⟩
  | _ => handle_write aofOk store command

/-! ## Codec

The source derives `bincode::{Encode, Decode}` (standard config); the
bincode code itself is not part of this repository. -/

/-- Modelled from the spec: the bincode codec (derived in `proto/mod.rs` and
`error.rs`, library code absent from the repository).  §6: "Multi-byte
integers little-endian; variable-length fields length-prefixed; enums tagged
by variant index in declaration order."  Naturals (tags, lengths, code
points) are emitted as a little-endian base-128 variable-length integer.
The first argument is recursion fuel (any amount at least the value works;
see `encodeNatAux_congr`); the fuel-exhausted arm is unreachable from
`encodeNat`. -/
def encodeNatAux : Nat → Nat → List Byte
  | 0, n => [⟨n % 128, by omega⟩]
  | fuel + 1, n =>
    if h : n < 128 then [⟨n, by omega⟩]
    else ⟨128 + n % 128, by omega⟩ :: encodeNatAux fuel (n / 128)

/-- Modelled from the spec: little-endian base-128 varint of a natural. -/
def encodeNat (n : Nat) : List Byte :=
  encodeNatAux n n

/-- Modelled from the spec: inverse of `encodeNat`; returns the value and the
unconsumed remainder of the stream. -/
def decodeNat : List Byte → Option (Nat × List Byte)
  | [] => none
  | b :: rest =>
    if b.val < 128 then some (b.val, rest)
    else
      match decodeNat rest with
      | some (m, r) => some ((b.val - 128) + 128 * m, r)
      | none => none

/-- Modelled from the spec: a character sequence, each code point varint-encoded. -/
def encodeChars : List Char → List Byte
  | [] => []
  | c :: cs => encodeNat c.toNat ++ encodeChars cs

/-- Modelled from the spec: read `n` varint code points. -/
def decodeChars : Nat → List Byte → Option (List Char × List Byte)
  | 0, bs => some ([], bs)
  | n + 1, bs =>
    match decodeNat bs with
    | some (m, r) =>
      match decodeChars n r with
      | some (cs, r2) => some (Char.ofNat m :: cs, r2)
      | none => none
    | none => none

/-- Modelled from the spec: a string is its length followed by its characters. -/
def encodeString (s : String) : List Byte :=
  encodeNat s.data.length ++ encodeChars s.data

/-- Modelled from the spec: inverse of `encodeString`. -/
def decodeString (bs : List Byte) : Option (String × List Byte) :=
  match decodeNat bs with
  | some (n, r) =>
    match decodeChars n r with
    | some (cs, r2) => some (String.mk cs, r2)
    | none => none
  | none => none

/-- Modelled from the spec: a byte vector is its length followed by its bytes. -/
def encodeBytes (v : Bytes) : List Byte :=
  encodeNat v.length ++ v

/-- Modelled from the spec: read `n` raw bytes. -/
def readBytes : Nat → List Byte → Option (Bytes × List Byte)
  | 0, bs => some ([], bs)
  | _ + 1, [] => none
  | n + 1, b :: bs =>
    match readBytes n bs with
    | some (v, r) => some (b :: v, r)
    | none => none

/-- Modelled from the spec: inverse of `encodeBytes`. -/
def decodeBytes (bs : List Byte) : Option (Bytes × List Byte) :=
  match decodeNat bs with
  | some (n, r) => readBytes n r
  | none => none

/-- Modelled from the spec: `Option<Vec<u8>>`, tagged 0 = `None`, 1 = `Some`. -/
def encodeOptBytes : Option Bytes → List Byte
  | none => encodeNat 0
  | some v => encodeNat 1 ++ encodeBytes v

/-- Modelled from the spec: inverse of `encodeOptBytes`. -/
def decodeOptBytes (bs : List Byte) : Option (Option Bytes × List Byte) :=
  match decodeNat bs with
  | some (0, r) => some (none, r)
  | some (1, r) =>
    match decodeBytes r with
    | some (v, r2) => some (some v, r2)
    | none => none
  | some _ => none
  | none => none

/-- Modelled from the spec: a string list is its length followed by its strings. -/
def encodeStrings : List String → List Byte
  | [] => []
  | s :: ss => encodeString s ++ encodeStrings ss

/-- Modelled from the spec: read `n` strings. -/
def decodeStringsAux : Nat → List Byte → Option (List String × List Byte)
  | 0, bs => some ([], bs)
  | n + 1, bs =>
    match decodeString bs with
    | some (s, r) =>
      match decodeStringsAux n r with
      | some (ss, r2) => some (s :: ss, r2)
      | none => none
    | none => none

/-- Modelled from the spec: a bool is one byte, 0 = `false`, 1 = `true`. -/
def encodeBool (b : Bool) : List Byte :=
  encodeNat (if b then 1 else 0)

/-- Modelled from the spec: inverse of `encodeBool`. -/
def decodeBool (bs : List Byte) : Option (Bool × List Byte) :=
  match decodeNat bs with
  | some (0, r) => some (false, r)
  | some (1, r) => some (true, r)
  | some _ => none
  | none => none

/-- Modelled from the spec: a `Command` is its variant index in declaration
order followed by its fields. -/
def encodeCommand : Command → List Byte
  | .Get space key => encodeNat 0 ++ encodeString space ++ encodeString key
  | .Set space key value =>
      encodeNat 1 ++ encodeString space ++ encodeString key ++ encodeBytes value
  | .Delete space key => encodeNat 2 ++ encodeString space ++ encodeString key
  | .ListSpaces => encodeNat 3
  | .ListKeys space => encodeNat 4 ++ encodeString space
  | .DeleteSpace space => encodeNat 5 ++ encodeString space
  | .CreateSpace space => encodeNat 6 ++ encodeString space
  | .IsSpaceExists space => encodeNat 7 ++ encodeString space

/-- Modelled from the spec: inverse of `encodeCommand`. -/
def decodeCommand (bs : List Byte) : Option (Command × List Byte) :=
  match decodeNat bs with
  | some (0, r) =>
    match decodeString r with
    | some (space, r1) =>
      match decodeString r1 with
      | some (key, r2) => some (.Get space key, r2)
      | none => none
    | none => none
  | some (1, r) =>
    match decodeString r with
    | some (space, r1) =>
      match decodeString r1 with
      | some (key, r2) =>
        match decodeBytes r2 with
        | some (value, r3) => some (.Set space key value, r3)
        | none => none
      | none => none
    | none => none
  | some (2, r) =>
    match decodeString r with
    | some (space, r1) =>
      match decodeString r1 with
      | some (key, r2) => some (.Delete space key, r2)
      | none => none
    | none => none
  | some (3, r) => some (.ListSpaces, r)
  | some (4, r) =>
    match decodeString r with
    | some (space, r1) => some (.ListKeys space, r1)
    | none => none
  | some (5, r) =>
    match decodeString r with
    | some (space, r1) => some (.DeleteSpace space, r1)
    | none => none
  | some (6, r) =>
    match decodeString r with
    | some (space, r1) => some (.CreateSpace space, r1)
    | none => none
  | some (7, r) =>
    match decodeString r with
    | some (space, r1) => some (.IsSpaceExists space, r1)
    | none => none
  | some _ => none
  | none => none

/-- Modelled from the spec: a `ServerError` is its variant index in
declaration order followed by its fields. -/
def encodeServerError : ServerError → List Byte
  | .SpaceNotFound name => encodeNat 0 ++ encodeString name
  | .KeyNotFound key space => encodeNat 1 ++ encodeString key ++ encodeString space
  | .SpaceAlreadyExists name => encodeNat 2 ++ encodeString name
  | .AofWriteFailed => encodeNat 3
  | .AofReadFailed => encodeNat 4
  | .InvalidKey reason => encodeNat 5 ++ encodeString reason
  | .InvalidSpaceName => encodeNat 6
  | .ValueTooLarge => encodeNat 7

/-- Modelled from the spec: inverse of `encodeServerError`. -/
def decodeServerError (bs : List Byte) : Option (ServerError × List Byte) :=
  match decodeNat bs with
  | some (0, r) =>
    match decodeString r with
    | some (name, r1) => some (.SpaceNotFound name, r1)
    | none => none
  | some (1, r) =>
    match decodeString r with
    | some (key, r1) =>
      match decodeString r1 with
      | some (space, r2) => some (.KeyNotFound key space, r2)
      | none => none
    | none => none
  | some (2, r) =>
    match decodeString r with
    | some (name, r1) => some (.SpaceAlreadyExists name, r1)
    | none => none
  | some (3, r) => some (.AofWriteFailed, r)
  | some (4, r) => some (.AofReadFailed, r)
  | some (5, r) =>
    match decodeString r with
    | some (reason, r1) => some (.InvalidKey reason, r1)
    | none => none
  | some (6, r) => some (.InvalidSpaceName, r)
  | some (7, r) => some (.ValueTooLarge, r)
  | some _ => none
  | none => none

/-- Modelled from the spec: a `Response` is its variant index in declaration
order followed by its fields; lists carry a length first. -/
def encodeResponse : Response → List Byte
  | .Ok => encodeNat 0
  | .Value v => encodeNat 1 ++ encodeOptBytes v
  | .Keys ks => encodeNat 2 ++ encodeNat ks.length ++ encodeStrings ks
  | .Spaces ss => encodeNat 3 ++ encodeNat ss.length ++ encodeStrings ss
  | .Bool b => encodeNat 4 ++ encodeBool b
  | .Error e => encodeNat 5 ++ encodeServerError e

/-- Modelled from the spec: inverse of `encodeResponse`. -/
def decodeResponse (bs : List Byte) : Option (Response × List Byte) :=
  match decodeNat bs with
  | some (0, r) => some (.Ok, r)
  | some (1, r) =>
    match decodeOptBytes r with
    | some (v, r1) => some (.Value v, r1)
    | none => none
  | some (2, r) =>
    match decodeNat r with
    | some (n, r1) =>
      match decodeStringsAux n r1 with
      | some (ks, r2) => some (.Keys ks, r2)
      | none => none
    | none => none
  | some (3, r) =>
    match decodeNat r with
    | some (n, r1) =>
      match decodeStringsAux n r1 with
      | some (ss, r2) => some (.Spaces ss, r2)
      | none => none
    | none => none
  | some (4, r) =>
    match decodeBool r with
    | some (b, r1) => some (.Bool b, r1)
    | none => none
  | some (5, r) =>
    match decodeServerError r with
    | some (e, r1) => some (.Error e, r1)
    | none => none
  | some _ => none
  | none => none

/-! ## AOF restore (`Db::restore_from_aof`, `Db::new`)

The file contents are a byte list; `none` models a path that does not
exist (`!aof_path.exists()`). -/

/-- Source `u32::from_le_bytes` of the 4-byte length header read by the restore loop. -/
def leU32 (b0 b1 b2 b3 : Byte) : Nat :=
  b0.val + 256 * b1.val + 65536 * b2.val + 16777216 * b3.val

/-- The 4-byte little-endian header the AOF writer emits
(`(len as u32).to_le_bytes()`), for `n < 2^32`. -/
def u32LE (n : Nat) : List Byte :=
  [⟨n % 256, by omega⟩, ⟨n / 256 % 256, by omega⟩,
   ⟨n / 65536 % 256, by omega⟩, ⟨n / 16777216 % 256, by omega⟩]

/-- The loop of `Db::restore_from_aof` (db.rs).  Fewer than 4 remaining
bytes make `read_exact` of the length header fail with `UnexpectedEof`,
which breaks the loop cleanly; a payload shorter than the header announces
makes the second `read_exact` fail, which aborts with `AofReadFailed`; a
payload that fails to decode is skipped. -/
def restoreLoopAux : Nat → Store → List Byte → Except ServerError Store
  | fuel + 1, store, b0 :: b1 :: b2 :: b3 :: rest =>
      let len := leU32 b0 b1 b2 b3
      if rest.length < len then .error .AofReadFailed
      else
        restoreLoopAux fuel
          (match decodeCommand (rest.take len) with
           | some (command, _) => apply_command_to_store store command
           | none => store)
          (rest.drop len)
  | _, store, _ => .ok store

/-- The restore loop; the fuel `bytes.length` always suffices, since every
iteration consumes at least the 4 header bytes (see `restoreLoopAux_congr`). -/
def restoreLoop (store : Store) (bytes : List Byte) : Except ServerError Store :=
  restoreLoopAux bytes.length store bytes

/-- Source `Db::restore_from_aof` (db.rs): empty store when the file does not
exist, else the frame-replay loop starting from an empty store. -/
def restore_from_aof (file : Option (List Byte)) : Except ServerError Store :=
  match file with
  | none => .ok []
  | some bytes => restoreLoop [] bytes

/-- Source `Db::new` (db.rs): restore, and on any restore error fall back to a
fresh empty store (`unwrap_or_else`); construction itself never fails. -/
def Db_new (file : Option (List Byte)) : Store :=
  match restore_from_aof file with
  | .ok store => store
  | .error _ => []

/-- A well-formed AOF image: each payload framed by its 4-byte length
header, as `aof_writer_task` writes them. -/
def encodeFrames : List (List Byte) → List Byte
  | [] => []
  | p :: ps => u32LE p.length ++ p ++ encodeFrames ps

/-- The fold the restore loop performs over a list of frame payloads:
decodable payloads are applied with `apply_command_to_store`, others skipped. -/
def replayPayloads (store : Store) : List (List Byte) → Store
  | [] => store
  | p :: ps =>
      replayPayloads
        (match decodeCommand p with
         | some (command, _) => apply_command_to_store store command
         | none => store)
        ps

instance {ε α : Type} [DecidableEq ε] [DecidableEq α] : DecidableEq (Except ε α) := fun a b =>
  match a, b with
  | .ok x, .ok y =>
    if h : x = y then .isTrue (by rw [h]) else .isFalse (by intro hh; cases hh; exact h rfl)
  | .error x, .error y =>
    if h : x = y then .isTrue (by rw [h]) else .isFalse (by intro hh; cases hh; exact h rfl)
  | .ok _, .error _ => .isFalse (by intro hh; cases hh)
  | .error _, .ok _ => .isFalse (by intro hh; cases hh)

/-! ## Codec round-trip lemmas -/

theorem string_mk_data (s : String) : String.mk s.data = s := by
  cases s; rfl

theorem encodeNatAux_congr :
    ∀ f1 f2 n : Nat, n ≤ f1 → n ≤ f2 → encodeNatAux f1 n = encodeNatAux f2 n := by
  intro f1
  induction f1 with
  | zero =>
    intro f2 n h1 h2
    have hn : n = 0 := by omega
    subst hn
    cases f2 with
    | zero => rfl
    | succ g2 => simp [encodeNatAux]
  | succ g ih =>
    intro f2 n h1 h2
    by_cases hn : n < 128
    · cases f2 with
      | zero =>
        have hz : n = 0 := by omega
        subst hz
        simp [encodeNatAux]
      | succ g2 => simp [encodeNatAux, hn]
    · cases f2 with
      | zero => omega
      | succ g2 =>
        simp only [encodeNatAux, hn, dite_false]
        rw [ih g2 (n / 128) (by omega) (by omega)]

theorem encodeNat_lt (n : Nat) (h : n < 128) : encodeNat n = [⟨n, by omega⟩] := by
  unfold encodeNat
  cases n with
  | zero => simp [encodeNatAux]
  | succ m => simp [encodeNatAux, h]

theorem encodeNat_ge (n : Nat) (h : 128 ≤ n) :
    encodeNat n = ⟨128 + n % 128, by omega⟩ :: encodeNat (n / 128) := by
  unfold encodeNat
  cases n with
  | zero => omega
  | succ m =>
    simp only [encodeNatAux, show ¬ (m + 1 < 128) by omega, dite_false]
    rw [encodeNatAux_congr m ((m + 1) / 128) ((m + 1) / 128) (by omega) (by omega)]

theorem decodeNat_encodeNat (n : Nat) (r : List Byte) :
    decodeNat (encodeNat n ++ r) = some (n, r) := by
  induction n using Nat.strong_induction_on with
  | _ n ih =>
    by_cases h : n < 128
    · rw [encodeNat_lt n h]
      simp [decodeNat, h]
    · rw [encodeNat_ge n (by omega)]
      have hb : ¬ (128 + n % 128 < 128) := by omega
      simp only [List.cons_append, decodeNat, hb, Fin.isValue, if_false, List.append_eq,
        ih (n / 128) (by omega), Option.some.injEq, Prod.mk.injEq, and_true]
      omega

theorem decodeChars_encodeChars (cs : List Char) (r : List Byte) :
    decodeChars cs.length (encodeChars cs ++ r) = some (cs, r) := by
  induction cs generalizing r with
  | nil => rfl
  | cons c cs ih =>
    simp only [List.length_cons, encodeChars, List.append_assoc, decodeChars,
      decodeNat_encodeNat, ih, Char.ofNat_toNat]

theorem decodeString_encodeString (s : String) (r : List Byte) :
    decodeString (encodeString s ++ r) = some (s, r) := by
  simp only [decodeString, encodeString, List.append_assoc, decodeNat_encodeNat,
    decodeChars_encodeChars, string_mk_data]

theorem readBytes_append (v : Bytes) (r : List Byte) :
    readBytes v.length (v ++ r) = some (v, r) := by
  induction v with
  | nil => rfl
  | cons b v ih => simp [readBytes, ih]

theorem decodeBytes_encodeBytes (v : Bytes) (r : List Byte) :
    decodeBytes (encodeBytes v ++ r) = some (v, r) := by
  simp only [decodeBytes, encodeBytes, List.append_assoc, decodeNat_encodeNat, readBytes_append]

theorem decodeOptBytes_encodeOptBytes (v : Option Bytes) (r : List Byte) :
    decodeOptBytes (encodeOptBytes v ++ r) = some (v, r) := by
  cases v with
  | none => simp [decodeOptBytes, encodeOptBytes, decodeNat_encodeNat]
  | some v =>
    simp [decodeOptBytes, encodeOptBytes, List.append_assoc, decodeNat_encodeNat,
      decodeBytes_encodeBytes]

theorem decodeStringsAux_encodeStrings (ss : List String) (r : List Byte) :
    decodeStringsAux ss.length (encodeStrings ss ++ r) = some (ss, r) := by
  induction ss generalizing r with
  | nil => rfl
  | cons s ss ih =>
    simp only [List.length_cons, encodeStrings, List.append_assoc, decodeStringsAux,
      decodeString_encodeString, ih]

theorem decodeBool_encodeBool (b : Bool) (r : List Byte) :
    decodeBool (encodeBool b ++ r) = some (b, r) := by
  cases b <;> simp [decodeBool, encodeBool, decodeNat_encodeNat]

theorem decodeServerError_encodeServerError (e : ServerError) (r : List Byte) :
    decodeServerError (encodeServerError e ++ r) = some (e, r) := by
  cases e <;>
    simp [decodeServerError, encodeServerError, List.append_assoc, decodeNat_encodeNat,
      decodeString_encodeString]

theorem decodeCommand_encodeCommand (c : Command) (r : List Byte) :
    decodeCommand (encodeCommand c ++ r) = some (c, r) := by
  cases c <;>
    simp [decodeCommand, encodeCommand, List.append_assoc, decodeNat_encodeNat,
      decodeString_encodeString, decodeBytes_encodeBytes]

theorem decodeResponse_encodeResponse (resp : Response) (r : List Byte) :
    decodeResponse (encodeResponse resp ++ r) = some (resp, r) := by
  cases resp <;>
    simp [decodeResponse, encodeResponse, List.append_assoc, decodeNat_encodeNat,
      decodeOptBytes_encodeOptBytes, decodeStringsAux_encodeStrings, decodeBool_encodeBool,
      decodeServerError_encodeServerError]

/-! ## Map lemmas -/

theorem assocGet_remove_self {α : Type} (m : List (String × α)) (k : String) :
    assocGet (assocRemove m k) k = none := by
  induction m with
  | nil => rfl
  | cons p rest ih =>
    simp only [assocRemove, List.filter_cons] at ih ⊢
    by_cases h : p.1 = k
    · simpa [h] using ih
    · simpa [assocGet, h] using ih

theorem assocGet_remove_ne {α : Type} (m : List (String × α)) (k k' : String) (h : k' ≠ k) :
    assocGet (assocRemove m k) k' = assocGet m k' := by
  induction m with
  | nil => rfl
  | cons p rest ih =>
    have hkk : ¬ (k = k') := fun hh => h hh.symm
    simp only [assocRemove, List.filter_cons, decide_not] at ih ⊢
    by_cases hp : p.1 = k
    · have hp2 : ¬ (p.1 = k') := by rw [hp]; exact Ne.symm h
      simp [hp, assocGet, hp2, hkk, ih]
    · by_cases hq : p.1 = k'
      · simp [hp, hq, assocGet, h, ih]
      · simp [hp, hq, assocGet, ih]

theorem assocGet_insert_self {α : Type} (m : List (String × α)) (k : String) (v : α) :
    assocGet (assocInsert m k v) k = some v := by
  simp [assocInsert, assocGet]

theorem assocGet_insert_ne {α : Type} (m : List (String × α)) (k k' : String) (v : α)
    (h : k' ≠ k) :
    assocGet (assocInsert m k v) k' = assocGet m k' := by
  simp only [assocInsert, assocGet]
  rw [if_neg (Ne.symm h)]
  exact assocGet_remove_ne m k k' h

theorem assocContains_iff {α : Type} (m : List (String × α)) (k : String) :
    assocContains m k = true ↔ ∃ v, assocGet m k = some v := by
  simp [assocContains, Option.isSome_iff_exists]

/-! ## Characterizations of `execute`, one per command -/

theorem exec_get (aofOk : Bool) (S : Store) (space key : String) :
    execute aofOk S (.Get space key) =
      match assocGet S space with
      | some sd => ⟨.Value (assocGet sd key), S, []⟩
      | none => ⟨.Error (.SpaceNotFound space), S, []⟩ := rfl

theorem exec_list_keys (aofOk : Bool) (S : Store) (space : String) :
    execute aofOk S (.ListKeys space) =
      match assocGet S space with
      | some sd => ⟨.Keys (sd.map Prod.fst), S, []⟩
      | none => ⟨.Error (.SpaceNotFound space), S, []⟩ := rfl

theorem exec_list_spaces (aofOk : Bool) (S : Store) :
    execute aofOk S .ListSpaces = ⟨.Spaces (S.map Prod.fst), S, []⟩ := rfl

theorem exec_is_space_exists (aofOk : Bool) (S : Store) (space : String) :
    execute aofOk S (.IsSpaceExists space) = ⟨.Bool (assocContains S space), S, []⟩ := rfl

theorem exec_set (aofOk : Bool) (S : Store) (space key : String) (value : Bytes) :
    execute aofOk S (.Set space key value) =
      if key.isEmpty then ⟨.Error (.InvalidKey "Key cannot be empty"), S, []⟩
      else if 1024 * 1024 < value.length then ⟨.Error .ValueTooLarge, S, []⟩
      else if aofOk = false then ⟨.Error .AofWriteFailed, S, []⟩
      else ⟨.Ok, assocInsert S space (assocInsert ((assocGet S space).getD []) key value),
        [.Set space key value]⟩ := by
  show handle_write aofOk S (.Set space key value) = _
  unfold handle_write validate_command
  by_cases hA : key.isEmpty <;> by_cases hB : 1024 * 1024 < value.length <;>
    cases aofOk <;> simp [hA, hB]

theorem exec_delete (aofOk : Bool) (S : Store) (space key : String) :
    execute aofOk S (.Delete space key) =
      if aofOk = false then ⟨.Error .AofWriteFailed, S, []⟩
      else
        match assocGet S space with
        | some sd => ⟨.Ok, assocInsert S space (assocRemove sd key), [.Delete space key]⟩
        | none => ⟨.Error (.SpaceNotFound space), S, [.Delete space key]⟩ := by
  show handle_write aofOk S (.Delete space key) = _
  unfold handle_write validate_command
  cases aofOk <;> simp

theorem exec_delete_space (aofOk : Bool) (S : Store) (space : String) :
    execute aofOk S (.DeleteSpace space) =
      if aofOk = false then ⟨.Error .AofWriteFailed, S, []⟩
      else if assocContains S space then ⟨.Ok, assocRemove S space, [.DeleteSpace space]⟩
      else ⟨.Error (.SpaceNotFound space), S, [.DeleteSpace space]⟩ := by
  show handle_write aofOk S (.DeleteSpace space) = _
  unfold handle_write validate_command
  cases aofOk <;> by_cases hc : assocContains S space <;> simp [hc]

theorem exec_create_space (aofOk : Bool) (S : Store) (space : String) :
    execute aofOk S (.CreateSpace space) =
      if space.isEmpty || space.utf8ByteSize > 255 then ⟨.Error .InvalidSpaceName, S, []⟩
      else if aofOk = false then ⟨.Error .AofWriteFailed, S, []⟩
      else if assocContains S space then
        ⟨.Error (.SpaceAlreadyExists space), S, [.CreateSpace space]⟩
      else ⟨.Ok, assocInsert S space [], [.CreateSpace space]⟩ := by
  show handle_write aofOk S (.CreateSpace space) = _
  unfold handle_write validate_command
  by_cases hA : space.isEmpty || space.utf8ByteSize > 255 <;>
    cases aofOk <;> by_cases hc : assocContains S space <;> simp [hA, hc]

/-! ## Read helpers -/

theorem get_response (aofOk : Bool) (S : Store) (space key : String) :
    (execute aofOk S (.Get space key)).response =
      match assocGet S space with
      | some sd => .Value (assocGet sd key)
      | none => .Error (.SpaceNotFound space) := by
  rw [exec_get]
  cases assocGet S space <;> rfl

theorem get_of_store (aofOk : Bool) (S : Store) (space key : String) (v : Bytes)
    (sd : SpaceData) (h1 : assocGet S space = some sd) (h2 : assocGet sd key = some v) :
    (execute aofOk S (.Get space key)).response = .Value (some v) := by
  rw [get_response, h1]
  simp [h2]

theorem get_some_inv (aofOk : Bool) (S : Store) (space key : String) (v : Bytes)
    (h : (execute aofOk S (.Get space key)).response = .Value (some v)) :
    ∃ sd, assocGet S space = some sd ∧ assocGet sd key = some v := by
  rw [get_response] at h
  cases hg : assocGet S space with
  | none => rw [hg] at h; simp at h
  | some sd =>
    rw [hg] at h
    simp only [Response.Value.injEq] at h
    exact ⟨sd, rfl, h⟩

/-! ## Claims -/

/-- C2: whenever `execute` answers `Response.Error` — validation failure,
failed AOF enqueue, or a state error — the published store is exactly the
pre-call store: no partial mutation is ever published. -/
theorem C2_error_leaves_store_unchanged (aofOk : Bool) (S : Store) (c : Command)
    (e : ServerError) (h : (execute aofOk S c).response = .Error e) :
    (execute aofOk S c).store = S := by
  cases c with
  | Get space key => rw [exec_get]; cases assocGet S space <;> rfl
  | ListKeys space => rw [exec_list_keys]; cases assocGet S space <;> rfl
  | ListSpaces => rfl
  | IsSpaceExists space => rfl
  | Set space key value =>
    rw [exec_set] at h ⊢
    split_ifs at h ⊢ <;> rfl
  | Delete space key =>
    rw [exec_delete] at h ⊢
    split_ifs at h ⊢
    · rfl
    · revert h
      cases hg : assocGet S space
      · intro h
        rfl
      · intro h
        change Response.Ok = Response.Error e at h
        cases h
  | DeleteSpace space =>
    rw [exec_delete_space] at h ⊢
    split_ifs at h ⊢ <;> rfl
  | CreateSpace space =>
    rw [exec_create_space] at h ⊢
    split_ifs at h ⊢ <;> rfl

/-- C2 witness: a `Get` on a missing space errors and leaves the store as it
was. -/
theorem C2_witness :
    (execute true [] (.Get "a" "k")).response = .Error (.SpaceNotFound "a") ∧
    (execute true [] (.Get "a" "k")).store = [] :=
  ⟨rfl, C2_error_leaves_store_unchanged true [] (.Get "a" "k") (.SpaceNotFound "a") rfl⟩

/-- C6: static validation accepts exactly the commands of §3: `Set` with an
empty key is `InvalidKey`; a `Set` value of at most 1,048,576 bytes passes
while a larger one is `ValueTooLarge`; `CreateSpace` with an empty name or a
name over 255 bytes is `InvalidSpaceName`, otherwise it passes; every other
command always passes. -/
theorem C6_validation_exact :
    (∀ s v, validate_command (.Set s "" v) = .error (.InvalidKey "Key cannot be empty")) ∧
    (∀ s k v, k ≠ "" → v.length ≤ 1024 * 1024 → validate_command (.Set s k v) = .ok ()) ∧
    (∀ s k v, k ≠ "" → 1024 * 1024 < v.length →
      validate_command (.Set s k v) = .error .ValueTooLarge) ∧
    (∀ s, s = "" ∨ 255 < s.utf8ByteSize →
      validate_command (.CreateSpace s) = .error .InvalidSpaceName) ∧
    (∀ s, s ≠ "" → s.utf8ByteSize ≤ 255 → validate_command (.CreateSpace s) = .ok ()) ∧
    (∀ s k, validate_command (.Get s k) = .ok ()) ∧
    (∀ s k, validate_command (.Delete s k) = .ok ()) ∧
    (validate_command .ListSpaces = .ok ()) ∧
    (∀ s, validate_command (.ListKeys s) = .ok ()) ∧
    (∀ s, validate_command (.DeleteSpace s) = .ok ()) ∧
    (∀ s, validate_command (.IsSpaceExists s) = .ok ()) := by
  refine ⟨fun s v => ?_, fun s k v hk hv => ?_, fun s k v hk hv => ?_,
    fun s hs => ?_, fun s hs1 hs2 => ?_, fun s k => rfl, fun s k => rfl, rfl,
    fun s => rfl, fun s => rfl, fun s => rfl⟩
  · rfl
  · have hk2 : k.isEmpty = false := by
      cases he : k.isEmpty
      · rfl
      · exact absurd ((String.isEmpty_iff k).mp he) hk
    simp [validate_command, hk2]
    omega
  · have hk2 : k.isEmpty = false := by
      cases he : k.isEmpty
      · rfl
      · exact absurd ((String.isEmpty_iff k).mp he) hk
    simp [validate_command, hk2, hv]
  · rcases hs with hs | hs
    · subst hs; rfl
    · simp [validate_command, hs]
  · have hk2 : s.isEmpty = false := by
      cases he : s.isEmpty
      · rfl
      · exact absurd ((String.isEmpty_iff s).mp he) hs1
    simp [validate_command, hk2]
    omega

/-- C6 witness: the boundary inputs — empty key, a value of exactly
1,048,576 bytes (passes) and 1,048,577 bytes (rejected), an empty space
name, and a short space name. -/
theorem C6_witness :
    validate_command (.Set "s" "" []) = .error (.InvalidKey "Key cannot be empty") ∧
    validate_command (.Set "s" "k" (List.replicate 1048576 0)) = .ok () ∧
    validate_command (.Set "s" "k" (List.replicate 1048577 0)) = .error .ValueTooLarge ∧
    validate_command (.CreateSpace "") = .error .InvalidSpaceName ∧
    validate_command (.CreateSpace "a") = .ok () :=
  ⟨C6_validation_exact.1 "s" [],
   C6_validation_exact.2.1 "s" "k" _ (by decide) (by simp only [List.length_replicate]; norm_num),
   C6_validation_exact.2.2.1 "s" "k" _ (by decide) (by simp only [List.length_replicate]; norm_num),
   C6_validation_exact.2.2.2.1 "" (Or.inl rfl),
   C6_validation_exact.2.2.2.2.1 "a" (by decide) (by decide)⟩

/-- C7: on `Get`, a present space with an absent key answers `Value(None)`,
an absent space answers `Error(SpaceNotFound)`, and the `Get` path never
produces `KeyNotFound`. -/
theorem C7_get_never_key_not_found (aofOk : Bool) (S : Store) (space key : String) :
    (∀ sd, assocGet S space = some sd → assocGet sd key = none →
      (execute aofOk S (.Get space key)).response = .Value none) ∧
    (assocGet S space = none →
      (execute aofOk S (.Get space key)).response = .Error (.SpaceNotFound space)) ∧
    (∀ k2 s2, (execute aofOk S (.Get space key)).response ≠ .Error (.KeyNotFound k2 s2)) := by
  refine ⟨fun sd h1 h2 => ?_, fun h1 => ?_, fun k2 s2 => ?_⟩
  · rw [get_response, h1]
    simp [h2]
  · rw [get_response, h1]
  · rw [get_response]
    cases assocGet S space <;> simp

/-- C7 witness: a store holding one empty space: `Get` of an unknown key
gives `Value(None)`; on the empty store, `Get` gives `SpaceNotFound`. -/
theorem C7_witness :
    (execute true [("sp", [])] (.Get "sp" "k")).response = .Value none ∧
    (execute true [] (.Get "sp" "k")).response = .Error (.SpaceNotFound "sp") :=
  ⟨(C7_get_never_key_not_found true [("sp", [])] "sp" "k").1 [] rfl rfl,
   (C7_get_never_key_not_found true [] "sp" "k").2.1 rfl⟩

/-- C9: `Set` never validates the space name: for any space name — empty or
arbitrarily long — a `Set` with a valid key and value returns `Ok` and binds
the key in that space, implicitly creating the space when absent. -/
theorem C9_set_skips_space_name_validation (s k : String) (v : Bytes) (hk : k ≠ "")
    (hv : v.length ≤ 1024 * 1024) (S : Store) :
    (execute true S (.Set s k v)).response = .Ok ∧
    assocGet ((execute true S (.Set s k v)).store) s =
      some (assocInsert ((assocGet S s).getD []) k v) := by
  have hk2 : k.isEmpty = false := by
    cases he : k.isEmpty
    · rfl
    · exact absurd ((String.isEmpty_iff k).mp he) hk
  rw [exec_set, if_neg (by simp [hk2]), if_neg (by omega)]
  exact ⟨rfl, assocGet_insert_self S s _⟩

/-- C9 witness: a `Set` into the empty-named space on an empty store
succeeds and creates that space. -/
theorem C9_witness :
    (execute true [] (.Set "" "k" [])).response = .Ok ∧
    assocGet ((execute true [] (.Set "" "k" [])).store) "" = some [("k", [])] :=
  C9_set_skips_space_name_validation "" "k" [] (by decide) (by decide) []

theorem assocRemove_of_get_none {α : Type} (m : List (String × α)) (k : String)
    (h : assocGet m k = none) : assocRemove m k = m := by
  induction m with
  | nil => rfl
  | cons p rest ih =>
    simp only [assocGet] at h
    by_cases hp : p.1 = k
    · simp [hp] at h
    · simp only [hp, if_false] at h
      have h2 : assocRemove rest k = rest := ih h
      simp only [assocRemove, List.filter_cons] at h2 ⊢
      rw [if_pos (by simp [hp]), h2]

/-- C3: write commands that pass static validation are enqueued to the AOF
channel before live-state errors are checked: a duplicate `CreateSpace` and
a `Delete`/`DeleteSpace` of a missing space are journaled yet answered with
`Response.Error`. -/
theorem C3_journaled_then_error (S : Store) :
    (∀ s, s ≠ "" → s.utf8ByteSize ≤ 255 → assocContains S s = true →
      (execute true S (.CreateSpace s)).journal = [.CreateSpace s] ∧
      (execute true S (.CreateSpace s)).response = .Error (.SpaceAlreadyExists s)) ∧
    (∀ s k, assocGet S s = none →
      (execute true S (.Delete s k)).journal = [.Delete s k] ∧
      (execute true S (.Delete s k)).response = .Error (.SpaceNotFound s)) ∧
    (∀ s, assocContains S s = false →
      (execute true S (.DeleteSpace s)).journal = [.DeleteSpace s] ∧
      (execute true S (.DeleteSpace s)).response = .Error (.SpaceNotFound s)) := by
  refine ⟨fun s hs1 hs2 hc => ?_, fun s k hg => ?_, fun s hc => ?_⟩
  · have he : s.isEmpty = false := by
      cases hx : s.isEmpty
      · rfl
      · exact absurd ((String.isEmpty_iff s).mp hx) hs1
    rw [exec_create_space, if_neg (by simp [he]; omega), if_neg (by simp), if_pos hc]
    exact ⟨rfl, rfl⟩
  · rw [exec_delete, if_neg (by simp), hg]
    exact ⟨rfl, rfl⟩
  · rw [exec_delete_space, if_neg (by simp), if_neg (by simp [hc])]
    exact ⟨rfl, rfl⟩

/-- C3 witness: a duplicate `CreateSpace` on a one-space store, and
`Delete`/`DeleteSpace` on the empty store, are all journaled but error. -/
theorem C3_witness :
    ((execute true [("a", [])] (.CreateSpace "a")).journal = [.CreateSpace "a"] ∧
     (execute true [("a", [])] (.CreateSpace "a")).response = .Error (.SpaceAlreadyExists "a")) ∧
    ((execute true [] (.Delete "a" "k")).journal = [.Delete "a" "k"] ∧
     (execute true [] (.Delete "a" "k")).response = .Error (.SpaceNotFound "a")) ∧
    ((execute true [] (.DeleteSpace "a")).journal = [.DeleteSpace "a"] ∧
     (execute true [] (.DeleteSpace "a")).response = .Error (.SpaceNotFound "a")) :=
  ⟨(C3_journaled_then_error [("a", [])]).1 "a" (by decide) (by decide) rfl,
   (C3_journaled_then_error []).2.1 "a" "k" rfl,
   (C3_journaled_then_error []).2.2 "a" rfl⟩

/-- C4: the AOF replay fold uses relaxed validation: `CreateSpace` of an
existing space re-inserts an empty `SpaceData`; `Set` into an absent space
implicitly creates it; `Delete` of an unknown space or unknown key is a
no-op; non-mutating commands leave the store untouched. -/
theorem C4_replay_relaxed_validation (S : Store) (s k : String) (v : Bytes) :
    (assocGet (apply_command_to_store S (.CreateSpace s)) s = some [] ∧
     ∀ s2, s2 ≠ s → assocGet (apply_command_to_store S (.CreateSpace s)) s2 = assocGet S s2) ∧
    (assocGet S s = none →
      assocGet (apply_command_to_store S (.Set s k v)) s = some [(k, v)] ∧
      ∀ s2, s2 ≠ s → assocGet (apply_command_to_store S (.Set s k v)) s2 = assocGet S s2) ∧
    (assocGet S s = none → apply_command_to_store S (.Delete s k) = S) ∧
    (∀ sd, assocGet S s = some sd → assocGet sd k = none →
      ∀ s2, assocGet (apply_command_to_store S (.Delete s k)) s2 = assocGet S s2) ∧
    (apply_command_to_store S (.Get s k) = S ∧
     apply_command_to_store S .ListSpaces = S ∧
     apply_command_to_store S (.ListKeys s) = S ∧
     apply_command_to_store S (.IsSpaceExists s) = S) := by
  refine ⟨⟨assocGet_insert_self S s [], fun s2 hs2 => assocGet_insert_ne S s s2 [] hs2⟩,
    fun hg => ⟨?_, fun s2 hs2 => ?_⟩, fun hg => ?_, fun sd hg hk2 s2 => ?_, rfl, rfl, rfl, rfl⟩
  · simp [apply_command_to_store, hg, assocInsert, assocRemove, assocGet]
  · simp only [apply_command_to_store]
    exact assocGet_insert_ne S s s2 _ hs2
  · simp [apply_command_to_store, hg]
  · simp only [apply_command_to_store, hg]
    rw [assocRemove_of_get_none sd k hk2]
    by_cases hs2 : s2 = s
    · subst hs2
      rw [assocGet_insert_self, hg]
    · exact assocGet_insert_ne S s s2 sd hs2

/-- C4 witness: on the store `[("a", [("x", [])])]` — replaying a duplicate
`CreateSpace "a"` empties the space, `Set` into absent `"b"` creates it,
`Delete` in absent `"b"` and `Delete` of unknown key `"z"` are no-ops. -/
theorem C4_witness :
    assocGet (apply_command_to_store [("a", [("x", [])])] (.CreateSpace "a")) "a" = some [] ∧
    assocGet (apply_command_to_store [("a", [("x", [])])] (.Set "b" "k" [])) "b" =
      some [("k", [])] ∧
    apply_command_to_store [("a", [("x", [])])] (.Delete "b" "k") = [("a", [("x", [])])] ∧
    assocGet (apply_command_to_store [("a", [("x", [])])] (.Delete "a" "z")) "a" =
      assocGet [("a", [("x", [])])] "a" :=
  ⟨(C4_replay_relaxed_validation [("a", [("x", [])])] "a" "k" []).1.1,
   ((C4_replay_relaxed_validation [("a", [("x", [])])] "b" "k" []).2.1 rfl).1,
   (C4_replay_relaxed_validation [("a", [("x", [])])] "b" "k" []).2.2.1 rfl,
   (C4_replay_relaxed_validation [("a", [("x", [])])] "a" "z" []).2.2.2.1 [("x", [])] rfl rfl "a"⟩

/-- C1: for a valid key and value, a successful `Set` makes `Get` answer
`Value(Some v)`; any later command other than a `Set` to the same key, a
`Delete` of the same key or a `DeleteSpace` of the space preserves that;
`Delete{s,k}` then makes `Get` answer `Value(None)` and `DeleteSpace{s}`
makes it answer `Error(SpaceNotFound(s))`. -/
theorem C1_set_get_until_delete (s k : String) (v : Bytes) (hk : k ≠ "")
    (hv : v.length ≤ 1024 * 1024) :
    (∀ S : Store,
      (execute true S (.Set s k v)).response = .Ok ∧
      (execute true ((execute true S (.Set s k v)).store) (.Get s k)).response =
        .Value (some v)) ∧
    (∀ (S : Store) (aofOk : Bool) (c : Command),
      (execute true S (.Get s k)).response = .Value (some v) →
      (∀ v2, c ≠ .Set s k v2) → c ≠ .Delete s k → c ≠ .DeleteSpace s →
      (execute true ((execute aofOk S c).store) (.Get s k)).response = .Value (some v)) ∧
    (∀ S : Store,
      (execute true S (.Get s k)).response = .Value (some v) →
      (execute true ((execute true S (.Delete s k)).store) (.Get s k)).response =
        .Value none) ∧
    (∀ S : Store,
      (execute true S (.Get s k)).response = .Value (some v) →
      (execute true ((execute true S (.DeleteSpace s)).store) (.Get s k)).response =
        .Error (.SpaceNotFound s)) := by
  have hk2 : k.isEmpty = false := by
    cases he : k.isEmpty
    · rfl
    · exact absurd ((String.isEmpty_iff k).mp he) hk
  refine ⟨fun S => ?_, fun S aofOk c hread hset hdel hds => ?_, fun S hread => ?_,
    fun S hread => ?_⟩
  · rw [exec_set, if_neg (by simp [hk2]), if_neg (by omega), if_neg (by simp)]
    exact ⟨rfl, get_of_store true _ s k v _ (assocGet_insert_self S s _)
      (assocGet_insert_self _ k v)⟩
  · obtain ⟨sd, hS, hsd⟩ := get_some_inv true S s k v hread
    cases c with
    | Get s2 k2 =>
      have hst : (execute aofOk S (.Get s2 k2)).store = S := by
        rw [exec_get]; cases assocGet S s2 <;> rfl
      rw [hst]; exact hread
    | ListKeys s2 =>
      have hst : (execute aofOk S (.ListKeys s2)).store = S := by
        rw [exec_list_keys]; cases assocGet S s2 <;> rfl
      rw [hst]; exact hread
    | ListSpaces => exact hread
    | IsSpaceExists s2 => exact hread
    | Set s2 k2 v2 =>
      rw [exec_set]
      split_ifs with h1 h2 h3
      · exact hread
      · exact hread
      · exact hread
      · by_cases hss : s2 = s
        · subst hss
          by_cases hkk : k2 = k
          · subst hkk; exact absurd rfl (hset v2)
          · refine get_of_store true _ s2 k v _ (assocGet_insert_self S s2 _) ?_
            rw [hS]
            exact (assocGet_insert_ne sd k2 k v2 (Ne.symm hkk)).trans hsd
        · exact get_of_store true _ s k v sd
            ((assocGet_insert_ne S s2 s _ (Ne.symm hss)).trans hS) hsd
    | Delete s2 k2 =>
      rw [exec_delete]
      split_ifs with h1
      · exact hread
      · cases hg2 : assocGet S s2 with
        | none => exact hread
        | some sd2 =>
          by_cases hss : s2 = s
          · subst hss
            have hsd2 : sd2 = sd := by rw [hS] at hg2; exact (Option.some.inj hg2).symm
            subst hsd2
            by_cases hkk : k2 = k
            · subst hkk; exact absurd rfl hdel
            · refine get_of_store true _ s2 k v _ (assocGet_insert_self S s2 _) ?_
              exact (assocGet_remove_ne sd2 k2 k (Ne.symm hkk)).trans hsd
          · exact get_of_store true _ s k v sd
              ((assocGet_insert_ne S s2 s _ (Ne.symm hss)).trans hS) hsd
    | DeleteSpace s2 =>
      have hss : s2 ≠ s := fun hh => hds (by rw [hh])
      rw [exec_delete_space]
      split_ifs with h1 h2
      · exact hread
      · exact get_of_store true _ s k v sd
          ((assocGet_remove_ne S s2 s (Ne.symm hss)).trans hS) hsd
      · exact hread
    | CreateSpace s2 =>
      rw [exec_create_space]
      split_ifs with h1 h2 h3
      · exact hread
      · exact hread
      · exact hread
      · by_cases hss : s2 = s
        · subst hss
          exact absurd (by simp [assocContains, hS]) h3
        · exact get_of_store true _ s k v sd
            ((assocGet_insert_ne S s2 s [] (Ne.symm hss)).trans hS) hsd
  · obtain ⟨sd, hS, hsd⟩ := get_some_inv true S s k v hread
    have hst : (execute true S (.Delete s k)).store = assocInsert S s (assocRemove sd k) := by
      rw [exec_delete, if_neg (by simp), hS]
    rw [hst, get_response, assocGet_insert_self]
    simp [assocGet_remove_self]
  · obtain ⟨sd, hS, hsd⟩ := get_some_inv true S s k v hread
    have hcont : assocContains S s = true := by simp [assocContains, hS]
    have hst : (execute true S (.DeleteSpace s)).store = assocRemove S s := by
      rw [exec_delete_space, if_neg (by simp), if_pos hcont]
    rw [hst, get_response, assocGet_remove_self]

/-- C1 witness: `Set "sp" "k" [1]` on the empty store returns `Ok` and the
following `Get` returns `Value(Some [1])`. -/
theorem C1_witness :
    (execute true [] (.Set "sp" "k" [1])).response = .Ok ∧
    (execute true ((execute true [] (.Set "sp" "k" [1])).store) (.Get "sp" "k")).response =
      .Value (some [1]) :=
  (C1_set_get_until_delete "sp" "k" [1] (by decide) (by decide)).1 []

/-! ## Restore-loop lemmas -/

theorem restoreLoopAux_congr :
    ∀ f1 f2 : Nat, ∀ (store : Store) (bs : List Byte),
      bs.length ≤ f1 → bs.length ≤ f2 →
      restoreLoopAux f1 store bs = restoreLoopAux f2 store bs := by
  intro f1
  induction f1 with
  | zero =>
    intro f2 store bs h1 h2
    have hbs : bs = [] := List.length_eq_zero.mp (by omega)
    subst hbs
    cases f2 <;> rfl
  | succ g ih =>
    intro f2 store bs h1 h2
    rcases bs with _ | ⟨b0, _ | ⟨b1, _ | ⟨b2, _ | ⟨b3, rest⟩⟩⟩⟩
    · cases f2 <;> rfl
    · cases f2 with
      | zero => simp at h2
      | succ g2 => rfl
    · cases f2 with
      | zero => simp at h2
      | succ g2 => rfl
    · cases f2 with
      | zero => simp at h2
      | succ g2 => rfl
    · cases f2 with
      | zero => simp at h2
      | succ g2 =>
        simp only [List.length_cons] at h1 h2
        simp only [restoreLoopAux]
        by_cases hlen : rest.length < leU32 b0 b1 b2 b3
        · simp [hlen]
        · simp only [hlen, if_false]
          exact ih g2 _ _ (by simp only [List.length_drop]; omega)
            (by simp only [List.length_drop]; omega)

theorem restoreLoop_short (store : Store) (bs : List Byte) (h : bs.length < 4) :
    restoreLoop store bs = .ok store := by
  rcases bs with _ | ⟨b0, _ | ⟨b1, _ | ⟨b2, _ | ⟨b3, rest⟩⟩⟩⟩
  · rfl
  · rfl
  · rfl
  · rfl
  · simp at h; omega

theorem restoreLoop_cons (store : Store) (b0 b1 b2 b3 : Byte) (rest : List Byte) :
    restoreLoop store (b0 :: b1 :: b2 :: b3 :: rest) =
      if rest.length < leU32 b0 b1 b2 b3 then .error .AofReadFailed
      else
        restoreLoop
          (match decodeCommand (rest.take (leU32 b0 b1 b2 b3)) with
           | some (command, _) => apply_command_to_store store command
           | none => store)
          (rest.drop (leU32 b0 b1 b2 b3)) := by
  simp only [restoreLoop, List.length_cons, restoreLoopAux]
  by_cases hlen : rest.length < leU32 b0 b1 b2 b3
  · simp [hlen]
  · simp only [hlen, if_false]
    exact restoreLoopAux_congr _ _ _ _ (by simp only [List.length_drop]; omega)
      (Nat.le_refl _)

theorem restoreLoop_frame (store : Store) (p fr : List Byte) (hp : p.length < 4294967296) :
    restoreLoop store (u32LE p.length ++ (p ++ fr)) =
      restoreLoop
        (match decodeCommand p with
         | some (command, _) => apply_command_to_store store command
         | none => store) fr := by
  have hcons : u32LE p.length ++ (p ++ fr) =
      (⟨p.length % 256, by omega⟩ : Byte) :: ⟨p.length / 256 % 256, by omega⟩ ::
        ⟨p.length / 65536 % 256, by omega⟩ :: ⟨p.length / 16777216 % 256, by omega⟩ ::
        (p ++ fr) := by
    simp [u32LE]
  rw [hcons, restoreLoop_cons]
  have hle : leU32 ⟨p.length % 256, by omega⟩ ⟨p.length / 256 % 256, by omega⟩
      ⟨p.length / 65536 % 256, by omega⟩ ⟨p.length / 16777216 % 256, by omega⟩ = p.length := by
    show p.length % 256 + 256 * (p.length / 256 % 256) + 65536 * (p.length / 65536 % 256) +
      16777216 * (p.length / 16777216 % 256) = p.length
    omega
  rw [hle, if_neg (by simp only [List.length_append]; omega), List.take_left, List.drop_left]

theorem restore_frames_ok (ps : List (List Byte)) (store : Store) (t : List Byte)
    (ht : t.length < 4) :
    (∀ p ∈ ps, p.length < 4294967296) →
    restoreLoop store (encodeFrames ps ++ t) = .ok (replayPayloads store ps) := by
  induction ps generalizing store with
  | nil =>
    intro _
    simpa [encodeFrames, replayPayloads] using restoreLoop_short store t ht
  | cons p ps ih =>
    intro hps
    simp only [encodeFrames, replayPayloads, List.append_assoc]
    rw [restoreLoop_frame _ _ _ (hps p (by simp))]
    exact ih _ (fun q hq => hps q (by simp [hq]))

theorem restore_frames_truncated (ps : List (List Byte)) (store : Store) (m : Nat)
    (u : List Byte) (hm : m < 4294967296) (hu : u.length < m) :
    (∀ p ∈ ps, p.length < 4294967296) →
    restoreLoop store (encodeFrames ps ++ (u32LE m ++ u)) = .error .AofReadFailed := by
  induction ps generalizing store with
  | nil =>
    intro _
    simp only [encodeFrames, List.nil_append]
    have hcons : u32LE m ++ u =
        (⟨m % 256, by omega⟩ : Byte) :: ⟨m / 256 % 256, by omega⟩ ::
          ⟨m / 65536 % 256, by omega⟩ :: ⟨m / 16777216 % 256, by omega⟩ :: u := by
      simp [u32LE]
    rw [hcons, restoreLoop_cons]
    have hle : leU32 ⟨m % 256, by omega⟩ ⟨m / 256 % 256, by omega⟩
        ⟨m / 65536 % 256, by omega⟩ ⟨m / 16777216 % 256, by omega⟩ = m := by
      show m % 256 + 256 * (m / 256 % 256) + 65536 * (m / 65536 % 256) +
        16777216 * (m / 16777216 % 256) = m
      omega
    rw [hle, if_pos hu]
  | cons p ps ih =>
    intro hps
    simp only [encodeFrames, List.append_assoc]
    rw [restoreLoop_frame _ _ _ (hps p (by simp))]
    exact ih _ (fun q hq => hps q (by simp [hq]))

/-- C8: the codec round-trips: decoding the encoding of any `Command` or
any `Response` gives the original value back, consuming the whole input. -/
theorem C8_codec_round_trip :
    (∀ c : Command, decodeCommand (encodeCommand c) = some (c, [])) ∧
    (∀ r : Response, decodeResponse (encodeResponse r) = some (r, [])) := by
  constructor
  · intro c
    have h := decodeCommand_encodeCommand c []
    rwa [List.append_nil] at h
  · intro r
    have h := decodeResponse_encodeResponse r []
    rwa [List.append_nil] at h

/-- C10: engine construction never propagates a restore failure: whenever
`restore_from_aof` errors, `Db::new` starts from the empty store instead. -/
theorem C10_new_swallows_restore_errors (file : Option (List Byte)) (e : ServerError)
    (h : restore_from_aof file = .error e) : Db_new file = [] := by
  unfold Db_new
  rw [h]

/-- C10 witness: a file announcing a 5-byte record but holding 1 byte makes
restore fail with `AofReadFailed`, and construction yields the empty store. -/
theorem C10_witness :
    restore_from_aof (some (u32LE 5 ++ [0])) = .error .AofReadFailed ∧
    Db_new (some (u32LE 5 ++ [0])) = [] :=
  ⟨by decide, C10_new_swallows_restore_errors _ .AofReadFailed (by decide)⟩

/-- C5 counterexample: one complete `CreateSpace "a"` frame followed by a
frame whose announced 5-byte payload is cut to 1 byte.  Folding the
complete prior record gives the store `[("a", [])]`, but restore does not
succeed with it: it aborts with `AofReadFailed` and construction falls back
to the empty store. -/
theorem C5_counterexample :
    restore_from_aof
        (some (encodeFrames [encodeCommand (.CreateSpace "a")] ++ (u32LE 5 ++ [0]))) =
      .error .AofReadFailed ∧
    restore_from_aof
        (some (encodeFrames [encodeCommand (.CreateSpace "a")] ++ (u32LE 5 ++ [0]))) ≠
      .ok (replayPayloads [] [encodeCommand (.CreateSpace "a")]) ∧
    Db_new (some (encodeFrames [encodeCommand (.CreateSpace "a")] ++ (u32LE 5 ++ [0]))) = [] ∧
    replayPayloads [] [encodeCommand (.CreateSpace "a")] = [("a", [])] :=
  ⟨by decide, by decide, by decide, by decide⟩

/-- C5 amended: if the trailing truncation falls inside the 4-byte length
header, restore succeeds and yields the fold of all complete prior frames;
if the announced payload itself is cut short, restore aborts with
`AofReadFailed` and engine construction falls back to the empty store. -/
theorem C5_truncated_trailing_frame (ps : List (List Byte))
    (hps : ∀ p ∈ ps, p.length < 4294967296) :
    (∀ t : List Byte, t.length < 4 →
      restore_from_aof (some (encodeFrames ps ++ t)) = .ok (replayPayloads [] ps)) ∧
    (∀ (m : Nat) (u : List Byte), m < 4294967296 → u.length < m →
      restore_from_aof (some (encodeFrames ps ++ (u32LE m ++ u))) = .error .AofReadFailed ∧
      Db_new (some (encodeFrames ps ++ (u32LE m ++ u))) = []) := by
  constructor
  · intro t ht
    exact restore_frames_ok ps [] t ht hps
  · intro m u hm hu
    have h2 : restore_from_aof (some (encodeFrames ps ++ (u32LE m ++ u))) =
        .error .AofReadFailed := restore_frames_truncated ps [] m u hm hu hps
    refine ⟨h2, ?_⟩
    unfold Db_new
    rw [h2]

/-- C5 witness: for the single complete frame `CreateSpace "a"` — a 1-byte
trailing remnant (short header) restores to `[("a", [])]`, while a cut
5-byte payload aborts the restore. -/
theorem C5_witness :
    restore_from_aof (some (encodeFrames [encodeCommand (.CreateSpace "a")] ++ [0])) =
      .ok (replayPayloads [] [encodeCommand (.CreateSpace "a")]) ∧
    restore_from_aof
        (some (encodeFrames [encodeCommand (.CreateSpace "a")] ++ (u32LE 5 ++ [0]))) =
      .error .AofReadFailed :=
  ⟨(C5_truncated_trailing_frame [encodeCommand (.CreateSpace "a")] (by decide)).1 [0]
      (by decide),
   ((C5_truncated_trailing_frame [encodeCommand (.CreateSpace "a")] (by decide)).2 5 [0]
      (by decide) (by decide)).1⟩

end RedDb
